import Mathlib

/-!
Verification development for the ACRE forensics pipeline
(`src/forensics_fastapi/forensics/`): a shallow embedding in Lean 4 of the
Atomizer (`atomizer.py`), the Attribution Engine (`attribution.py`), the
Verification Engine (`verification.py`) and the message-processing
orchestration of `ACREPipeline.process_message` (`pipeline.py`), together
with theorems settling the specification claims about them.

Modelling conventions:
* Python strings are Lean `String`s; `None` for an optional text argument is
  modelled as `""` where the Python code only tests truthiness, and as
  `Option` where the distinction is observable.
* External primitives are parameters gathered in `Deps`:
  `hashlib.sha256(...).hexdigest()` is an opaque function `String → String`,
  `nltk.sent_tokenize` is `String → List String`, and
  `diff_match_patch`'s pretty-HTML diff is `String → String → String`.
* `BeautifulSoup(html, "lxml")` followed by `soup.find("body") or soup` is
  modelled by a parameter `parseHtml : String → Node` producing the parsed
  tree that the traversal starts from.
* Character-level helpers (`str.strip`, `str.lower`, `str.split`, ...) are
  embedded on `List Char` for the ASCII range the claims exercise.
-/

/-! ## Python string primitives -/

/-- Whitespace test used by `str.strip` / `str.split` (ASCII fragment). -/
def pyIsSpace (c : Char) : Bool := c.isWhitespace

/-- Leading-whitespace removal, as in Python `str.lstrip()`. -/
def pyLstripL (l : List Char) : List Char := l.dropWhile pyIsSpace

/-- Two-sided whitespace strip on char lists, as in Python `str.strip()`. -/
def pyStripL (l : List Char) : List Char :=
  ((l.dropWhile pyIsSpace).reverse.dropWhile pyIsSpace).reverse

/-- Python `str.strip()` on strings. -/
def pyStrip (s : String) : String := ⟨pyStripL s.data⟩

/-- Python `str.lower()` (ASCII fragment, per-character). -/
def pyLowerL (l : List Char) : List Char := l.map Char.toLower

/-- Python `str.lower()` on strings. -/
def pyLower (s : String) : String := ⟨pyLowerL s.data⟩

/-- Helper for `pySplitWS`: groups maximal whitespace-free runs, an empty
group marking each whitespace boundary. -/
def splitAuxWS : List Char → List (List Char)
  | [] => []
  | c :: l =>
    if pyIsSpace c then [] :: splitAuxWS l
    else
      match splitAuxWS l with
      | [] => [[c]]
      | w :: ws => (c :: w) :: ws

/-- Python `str.split()` with no argument: split on whitespace runs,
discarding empty fields. -/
def pySplitWS (l : List Char) : List (List Char) :=
  (splitAuxWS l).filter (· ≠ [])

/-- Python `" ".join(words)` on char-list words. -/
def joinWords : List (List Char) → List Char
  | [] => []
  | [w] => w
  | w :: ws => w ++ ' ' :: joinWords ws

/-- Python `sep in s` substring test. -/
def isSubL (needle : List Char) : List Char → Bool
  | [] => needle.isEmpty
  | c :: rest => needle.isPrefixOf (c :: rest) || isSubL needle rest

/-- Substring test on strings (Python `in`). -/
def strContains (hay needle : String) : Bool := isSubL needle.data hay.data

/-- Whitespace-run collapse: split on whitespace and re-join with single
spaces (the composition inside `normalize_content`, on raw char lists). -/
def collapseWS (l : List Char) : List Char := joinWords (pySplitWS l)

/-- Every whitespace character in the list is a plain space. -/
def wsOnlySpaces (l : List Char) : Bool := l.all (fun c => !pyIsSpace c || c == ' ')

/-- No two adjacent whitespace characters (no whitespace run of length 2). -/
def noAdjWS : List Char → Bool
  | c :: d :: l => (!(pyIsSpace c && pyIsSpace d)) && noAdjWS (d :: l)
  | _ => true

/-- The first character, if any, is not whitespace. -/
def noLeadWS : List Char → Bool
  | [] => true
  | c :: _ => !pyIsSpace c

/-- The last character, if any, is not whitespace. -/
def noTrailWS (l : List Char) : Bool := noLeadWS l.reverse

/-- A (trimmed) text contains a whitespace run of length two or more, or a
whitespace character other than the plain space — exactly the texts whose
lowercased form is changed by whitespace collapsing. -/
def hasCollapsibleWS (s : String) : Bool :=
  !(wsOnlySpaces s.data && noAdjWS s.data)

/-! ## External dependencies -/

/-- The external primitives the forensics core consumes: the SHA-256
hexdigest (`hashlib`), the sentence segmenter (`nltk.sent_tokenize`) and the
pretty-HTML semantic diff (`diff_match_patch.diff_prettyHtml` composed with
`diff_main`/`diff_cleanupSemantic`, taking original then quote). -/
structure Deps where
  sha256 : String → String
  sent_tokenize : String → List String
  diff_prettyHtml : String → String → String

/-! ## Visual style (atomizer.py lines 61–85) -/

/-- The inline style record threaded through the HTML traversal: the three
keys the source ever writes into its `node_style` dict. -/
structure Style where
  color : Option String := none
  font_weight : Option String := none
  text_transform : Option String := none
deriving DecidableEq, Repr

/-- First value for an attribute name in a tag's attribute list
(bs4 `node.get(name)`, attributes modelled single-valued). -/
def getAttr (attrs : List (String × String)) (name : String) : Option String :=
  (attrs.find? (fun p => p.1 = name)).map (·.2)

/-- Single attempt of the regex `color\s*:\s*([^;"]+)` at the start of `l`
(value returned already `.strip()`-ed), as in atomizer.py line 68–70. -/
def matchColorHere (l : List Char) : Option String :=
  if ("color".data).isPrefixOf l then
    match (l.drop 5).dropWhile pyIsSpace with
    | ':' :: r3 =>
      match r3.takeWhile (fun c => ¬(c = ';' ∨ c = '"')) with
      | [] => none
      | cap => some ⟨pyStripL cap⟩
    | _ => none
  else none

/-- `re.search(r'color\s*:\s*([^;"]+)', style_attr)` with `.group(1).strip()`:
first position, left to right, where the pattern matches. -/
def scanColor : List Char → Option String
  | [] => none
  | c :: rest =>
    match matchColorHere (c :: rest) with
    | some v => some v
    | none => scanColor rest

/-- Style update performed on entering a `Tag` node
(atomizer.py lines 61–85): parse the lowercased `style` attribute for
color / font-weight / text-transform, then apply tag-based styling for
`b`/`strong` and the legacy `font color` attribute. -/
def updateStyleTag (name : String) (attrs : List (String × String))
    (st : Style) : Style :=
  let style_attr := pyLower ((getAttr attrs "style").getD "")
  let st1 :=
    if style_attr ≠ "" then
      let stc :=
        if strContains style_attr "color" then
          match scanColor style_attr.data with
          | some v => { st with color := some v }
          | none => st
        else st
      let stw :=
        if (strContains style_attr "font-weight" || (name = "b" || name = "strong")) &&
            (strContains style_attr "bold" || (name = "b" || name = "strong")) then
          { stc with font_weight := some "bold" }
        else stc
      if strContains style_attr "text-transform" && strContains style_attr "uppercase" then
        { stw with text_transform := some "uppercase" }
      else stw
    else st
  let st2 :=
    if name = "b" ∨ name = "strong" then { st1 with font_weight := some "bold" } else st1
  if name = "font" then
    match getAttr attrs "color" with
    | some cv => { st2 with color := some (pyLower cv) }
    | none => st2
  else st2

/-- `json.dumps` escaping for the characters that can occur in the style
values in play (backslash and double quote). -/
def jsonEscape (s : String) : String :=
  ⟨s.data.foldr (fun c acc => if c = '\\' ∨ c = '"' then '\\' :: c :: acc else c :: acc) []⟩

/-- `{k: v for k, v in node_style.items() if v}` with keys in sorted order
(`color` < `font_weight` < `text_transform`), as `json.dumps(..., sort_keys=True)`
serializes them. -/
def cleanStylePairs (st : Style) : List (String × String) :=
  (match st.color with
   | some v => if v ≠ "" then [("color", v)] else []
   | none => []) ++
  (match st.font_weight with
   | some v => if v ≠ "" then [("font_weight", v)] else []
   | none => []) ++
  (match st.text_transform with
   | some v => if v ≠ "" then [("text_transform", v)] else []
   | none => [])

/-- `json.dumps(clean_style, sort_keys=True)`: the canonical serialized
visual fingerprint stored on each atom. -/
def dumpsStyle (st : Style) : String :=
  let ps := cleanStylePairs st
  "\x7b" ++
    String.intercalate ", "
      (ps.map (fun p => "\x22" ++ jsonEscape p.1 ++ "\x22: \x22" ++ jsonEscape p.2 ++ "\x22"))
    ++ "\x7d"

/-! ## Atoms and the Atomizer -/

/-- A transcript atom as built by `Atomizer.atomize` /
`Atomizer._atomize_plain` (a Python dict; `Option` models keys that may be
absent or `None`).  `labels` is appended later by the classification step. -/
structure Atom where
  id : String
  messageId : String
  content : String
  normalizedHash : String
  sequenceIndex : Nat
  quoteDepth : Nat
  visualStyle : Option String
  attributedTo : Option String
  attributionMethod : Option String
  labels : Option (List String) := none
deriving DecidableEq, Repr

/-- A parsed HTML node: `text` models a bs4 `NavigableString`, `tag` a bs4
`Tag` with its name, attributes and children. -/
inductive Node where
  | text (s : String) : Node
  | tag (name : String) (attrs : List (String × String)) (children : List Node) : Node
deriving Repr

namespace Atomizer

/-- Emission of atoms for the sentences of one text node
(atomizer.py lines 96–125): strip each sentence, skip empty ones, stamp the
current depth/style and the shared sequence counter. -/
def emitSentences (ext : Deps) (mid : String) (depth : Nat) (st : Style) :
    List String → Nat → List Atom × Nat
  | [], i => ([], i)
  | sent :: rest, i =>
    let t := pyStrip sent
    if t = "" then emitSentences ext mid depth st rest i
    else
      let atom : Atom :=
        { id := ext.sha256 (mid ++ "_" ++ toString i)
          messageId := mid
          content := t
          normalizedHash := ext.sha256 (pyLower t)
          sequenceIndex := i
          quoteDepth := depth
          visualStyle := some (dumpsStyle st)
          attributedTo := none
          attributionMethod := none }
      let r := emitSentences ext mid depth st rest (i + 1)
      (atom :: r.1, r.2)

/-- Handling of a `NavigableString` leaf (atomizer.py lines 91–125): strip,
skip if empty, otherwise segment into sentences and emit. -/
def emitText (ext : Deps) (mid : String) (s : String) (depth : Nat) (st : Style)
    (i : Nat) : List Atom × Nat :=
  let text := pyStrip s
  if text = "" then ([], i)
  else emitSentences ext mid depth st (ext.sent_tokenize text) i

/-- The recursive `traverse` of atomizer.py lines 47–125, written over a
worklist of siblings and returning `(atoms, next sequence_index)` so the
closure-captured `nonlocal sequence_index` counter is explicit.  Entering a
`blockquote` increments the depth for the whole subtree; entering any tag
updates the inherited style. -/
def traverseList (ext : Deps) (mid : String) :
    List Node → Nat → Style → Nat → List Atom × Nat
  | [], _, _, i => ([], i)
  | Node.text s :: rest, d, st, i =>
    let r1 := emitText ext mid s d st i
    let r2 := traverseList ext mid rest d st r1.2
    (r1.1 ++ r2.1, r2.2)
  | Node.tag name attrs children :: rest, d, st, i =>
    let d' := if name = "blockquote" then d + 1 else d
    let st' := updateStyleTag name attrs st
    let r1 := traverseList ext mid children d' st' i
    let r2 := traverseList ext mid rest d st r1.2
    (r1.1 ++ r2.1, r2.2)

/-- `Atomizer._atomize_plain` (atomizer.py lines 131–159): enumerate the
segmenter's sentences (the index `i` advances even over skipped empty
sentences), estimate quote depth by `sent_text.count(">")` when the stripped
sentence starts with `>`, strip leading `>` and spaces, and attribute
depth-0 sentences to the sender.  The dict built there has no
`attributionMethod` key, modelled as `none`. -/
def atomizePlainGo (ext : Deps) (mid : String) (sender : Option String) :
    List String → Nat → List Atom
  | [], _ => []
  | sent :: rest, i =>
    let t := pyStrip sent
    if t = "" then atomizePlainGo ext mid sender rest (i + 1)
    else
      let depth := if t.data.headD ' ' = '>' then t.data.count '>' else 0
      let t2 := if t.data.headD ' ' = '>' then
          pyStrip ⟨t.data.dropWhile (fun c => c = '>' ∨ c = ' ')⟩
        else t
      let atom : Atom :=
        { id := ext.sha256 (mid ++ "_" ++ toString i)
          messageId := mid
          content := t2
          normalizedHash := ext.sha256 (pyLower t2)
          sequenceIndex := i
          quoteDepth := depth
          visualStyle := some "\x7b\x7d"
          attributedTo := if depth = 0 then sender else none
          attributionMethod := none }
      atom :: atomizePlainGo ext mid sender rest (i + 1)

/-- `Atomizer._atomize_plain` entry point. -/
def atomizePlain (ext : Deps) (mid text : String) (sender : Option String) :
    List Atom :=
  atomizePlainGo ext mid sender (ext.sent_tokenize text) 0

/-- `Atomizer.atomize` (atomizer.py lines 32–129): plain-text fallback when
`html_content` is falsy and `plain_content` is not; otherwise parse the HTML
and traverse from the body with depth 0, empty style and sequence index 0. -/
def atomize (ext : Deps) (parseHtml : String → Node)
    (message_id html_content plain_content : String)
    (sender_email : Option String) : List Atom :=
  if html_content = "" ∧ plain_content ≠ "" then
    atomizePlain ext message_id plain_content sender_email
  else
    (traverseList ext message_id [parseHtml html_content] 0 {} 0).1

end Atomizer

/-! ## json.loads (attribution.py line 22) -/

/-- One JSON string literal: `"..."` with the `\"` and `\\` escapes (the only
escapes `json.dumps` emits for the style values in play); returns the decoded
string and the remaining input. -/
def parseJStringBody : List Char → List Char → Except String (String × List Char)
  | [], _ => .error "Unterminated string"
  | '"' :: rest, acc => .ok (⟨acc.reverse⟩, rest)
  | '\\' :: c :: rest, acc =>
    if c = '"' ∨ c = '\\' then parseJStringBody rest (c :: acc)
    else .error "Unsupported escape"
  | c :: rest, acc => parseJStringBody rest (c :: acc)

/-- Expect a JSON string literal at the head of the input. -/
def parseJString : List Char → Except String (String × List Char)
  | '"' :: rest => parseJStringBody rest []
  | _ => .error "Expecting string"

/-- Key/value pairs of a flat JSON object, after the opening brace; `fuel`
is an upper bound on the input length (callers pass `length + 1`, so the
fuel case is unreachable). -/
def parseJPairs (fuel : Nat) (l : List Char) :
    Except String (List (String × String)) :=
  match fuel with
  | 0 => .error "Out of fuel"
  | fuel + 1 =>
    match parseJString (pyLstripL l) with
    | .error e => .error e
    | .ok (k, r1) =>
      match pyLstripL r1 with
      | ':' :: r2 =>
        match parseJString (pyLstripL r2) with
        | .error e => .error e
        | .ok (v, r3) =>
          match pyLstripL r3 with
          | ',' :: r4 =>
            match parseJPairs fuel r4 with
            | .error e => .error e
            | .ok ps => .ok ((k, v) :: ps)
          | '\x7d' :: r4 =>
            if pyLstripL r4 = [] then .ok [(k, v)] else .error "Extra data"
          | _ => .error "Expecting delimiter"
      | _ => .error "Expecting colon"

/-- `json.loads` restricted to the flat string-to-string objects this
codebase stores in `visualStyle` (the output domain of
`json.dumps(clean_style, sort_keys=True)`); any other document is a decode
error, as `json.loads` raises on the malformed inputs the claims exercise
(in particular the empty string). -/
def jsonLoadsFlat (s : String) : Except String (List (String × String)) :=
  match pyLstripL s.data with
  | '\x7b' :: r1 =>
    match pyLstripL r1 with
    | '\x7d' :: r2 => if pyLstripL r2 = [] then .ok [] else .error "Extra data"
    | _ => parseJPairs (r1.length + 1) r1
  | _ => .error "Expecting value"

/-! ## Attribution Engine (attribution.py) -/

/-- The sentinel author stored for quoted material pending reference
resolution — the spec's `UNRESOLVED_QUOTED_PARTY`; the source writes the
string `"Quoted_Party"`. -/
def UNRESOLVED_QUOTED_PARTY : String := "Quoted_Party"

namespace AttributionEngine

/-- The "aggressive style" test of attribution.py lines 35–46 on the parsed
visual-style dict: a color value containing `"red"`, a bold font weight, or
an uppercase text transform (guarded by `if visual_style:`, i.e. the dict is
nonempty). -/
def isAggressiveStyle (vs : List (String × String)) : Bool :=
  if vs.isEmpty then false
  else
    (match vs.lookup "color" with
     | some c => strContains c "red"
     | none => false) ||
    (vs.lookup "font_weight" = some "bold") ||
    (vs.lookup "text_transform" = some "uppercase")

/-- The per-atom body of the loop in `attribute_atoms`
(attribution.py lines 19–58): `json.loads` the visual style (default
`"{}"` when the key is missing — a decode failure propagates as the raised
exception), then apply the depth-0 / aggressive-style / quoted-party
policy.  (The depth-0 branch additionally writes `isAlteredQuote = False`,
a key nothing downstream reads; it is omitted from the `Atom` record.) -/
def attributeOne (sender_email : Option String) (atom : Atom) :
    Except String Atom :=
  match jsonLoadsFlat (atom.visualStyle.getD "\x7b\x7d") with
  | .error e => .error e
  | .ok vs =>
    if atom.quoteDepth = 0 then
      .ok { atom with
              attributedTo := sender_email
              attributionMethod := some "HEADER_DEPTH_0" }
    else if isAggressiveStyle vs then
      .ok { atom with
              attributedTo := sender_email
              attributionMethod := some "STYLE_INFERENCE_INTERJECTION" }
    else
      .ok { atom with
              attributedTo := some UNRESOLVED_QUOTED_PARTY
              attributionMethod := some "QUOTE_DEPTH" }

/-- `AttributionEngine.attribute_atoms` (attribution.py lines 8–60): the
loop over the batch; an exception raised for one atom aborts the whole
call, modelled by `Except`. -/
def attribute_atoms (atoms : List Atom) (sender_email : Option String) :
    Except String (List Atom) :=
  match atoms with
  | [] => .ok []
  | a :: rest =>
    match attributeOne sender_email a with
    | .error e => .error e
    | .ok a' =>
      match attribute_atoms rest sender_email with
      | .error e => .error e
      | .ok rest' => .ok (a' :: rest')

end AttributionEngine

/-! ## Verification Engine (verification.py) -/

namespace VerificationEngine

/-- `normalize_content` (verification.py lines 10–14): lowercase, split on
whitespace runs, re-join with single spaces; falsy input maps to `""`. -/
def normalize_content (text : String) : String :=
  if text = "" then ""
  else ⟨joinWords (pySplitWS (pyLowerL text.data))⟩

/-- `compute_hash` (verification.py lines 16–18). -/
def compute_hash (sha256 : String → String) (text : String) : String :=
  sha256 (normalize_content text)

/-- `verify_quote` (verification.py lines 20–37): normalized-hash equality
is the match fast path; on mismatch the semantic diff of
`(original, quote)` is returned as rendered markup. -/
def verify_quote (ext : Deps) (quote_text original_source_text : String) :
    Bool × Option String :=
  if compute_hash ext.sha256 quote_text = compute_hash ext.sha256 original_source_text then
    (true, none)
  else
    (false, some (ext.diff_prettyHtml original_source_text quote_text))

end VerificationEngine

/-! ## Pipeline orchestration (pipeline.py, `process_message`) -/

/-- Outcome of one call to a persistence/classification collaborator for the
message being processed: `Except.error` models the Python call raising. -/
structure ClientBehavior where
  create_message : Except String Unit
  classify_batch : Except String (List (String × List String))
  batch_create_transcripts : Except String Unit
  store_analysis : Except String Unit

/-- Observable steps `process_message` performs, in order: the D1 message
record creation, the Atomize / Attribute computations, the classification
attempt, the transcript batch write (with its payload size) and the
analysis-summary write. -/
inductive Effect where
  | createMessage : Effect
  | atomizeStep (atomCount : Nat) : Effect
  | attributeStep : Effect
  | classifyStep (ok : Bool) : Effect
  | batchCreateTranscripts (payloadSize : Nat) : Effect
  | storeAnalysis : Effect
deriving DecidableEq, Repr

/-- The dict returned by `process_message`:
`{"status": "skipped", "reason": "duplicate"}` or
`{"status": "success", "atoms": n}`. -/
structure PResult where
  status : String
  reason : Option String := none
  atoms : Option Nat := none
deriving DecidableEq, Repr

namespace ACREPipeline

/-- `classification_results.get(atom["id"], [])`. -/
def getLabels (results : List (String × List String)) (id : String) :
    List String :=
  (results.lookup id).getD []

/-- `ACREPipeline.process_message` (pipeline.py lines 158–325) from the
persistence gate onward, for a message whose body content is already in the
payload (the optional best-effort Gmail prefetch of lines 178–221 is wrapped
in its own try/except and only fills `body_plain`/`body_html`/`headers`,
which are inputs here).  Returns the trace of steps performed and either the
returned dict or the exception that propagates out of the call:

* lines 244–252: `create_message` raising anything short-circuits to
  `{"status": "skipped", "reason": "duplicate"}`;
* lines 254–264: Atomize then Attribute (an attribution exception
  propagates);
* lines 266–286: classification, its failure caught and logged;
* lines 288–309: the transcript batch write — uncaught on failure;
* lines 311–321: the analysis-summary write — uncaught on failure;
* line 325: `{"status": "success", "atoms": len(atoms)}`. -/
def process_message (ext : Deps) (parseHtml : String → Node)
    (client : ClientBehavior) (message_id body_html body_plain : String)
    (from_addr : Option String) : List Effect × Except String PResult :=
  match client.create_message with
  | .error _ =>
    ([.createMessage], .ok { status := "skipped", reason := some "duplicate" })
  | .ok _ =>
    let atoms := Atomizer.atomize ext parseHtml message_id body_html body_plain from_addr
    match AttributionEngine.attribute_atoms atoms from_addr with
    | .error e =>
      ([.createMessage, .atomizeStep atoms.length, .attributeStep], .error e)
    | .ok attributed =>
      let enriched : List Atom × Bool := match client.classify_batch with
        | .ok results =>
          (attributed.map (fun a => { a with labels := some (getLabels results a.id) }), true)
        | .error _ => (attributed, false)
      let trace0 := [Effect.createMessage, .atomizeStep atoms.length, .attributeStep,
                     .classifyStep enriched.2,
                     .batchCreateTranscripts enriched.1.length]
      match client.batch_create_transcripts with
      | .error e => (trace0, .error e)
      | .ok _ =>
        match client.store_analysis with
        | .error e => (trace0 ++ [.storeAnalysis], .error e)
        | .ok _ =>
          (trace0 ++ [.storeAnalysis],
           .ok { status := "success", atoms := some atoms.length })

/-- Persistence collaborator whose `create_message` succeeds exactly when
the message id is not yet recorded (the duplicate raises), modelling the D1
message table for the two-submission scenario. -/
def clientForStore (store : List String) (mid : String)
    (rest : ClientBehavior) : ClientBehavior :=
  { rest with
      create_message :=
        if mid ∈ store then .error "message record already exists" else .ok () }

/-- The id set after a `process_message` call: the record exists afterwards
exactly when it existed before or the create succeeded. -/
def storeAfter (store : List String) (mid : String) : List String :=
  if mid ∈ store then store else mid :: store

end ACREPipeline

/-! ## Concrete instantiations used by witnesses and counterexamples -/

/-- External dependencies with an injective (identity) hash, a segmenter
returning one fixed non-blank sentence, and a marker diff renderer. -/
def depsA : Deps :=
  { sha256 := fun s => s
    sent_tokenize := fun _ => ["a."]
    diff_prettyHtml := fun a b => "<ins>" ++ a ++ "|" ++ b ++ "</ins>" }

/-- Dependencies whose segmenter yields a sentence with an interior `>` —
the shape a plain-text email about quantities produces. -/
def depsInteriorGt : Deps := { depsA with sent_tokenize := fun _ => ["> x > y.", "ok."] }

/-- Dependencies whose segmenter yields no sentences. -/
def depsNoSent : Deps := { depsA with sent_tokenize := fun _ => [] }

/-- Trivial HTML parse result (an empty body). -/
def parse0 : String → Node := fun _ => Node.text ""

/-- A collaborator for which every call succeeds (classification returns an
empty labelling). -/
def clientOk : ClientBehavior :=
  { create_message := .ok ()
    classify_batch := .ok []
    batch_create_transcripts := .ok ()
    store_analysis := .ok () }

/-- A depth-1 atom with the given raw `visualStyle` value. -/
def mkDepth1Atom (vs : Option String) : Atom :=
  { id := "a0", messageId := "m", content := "c", normalizedHash := "h"
    sequenceIndex := 0, quoteDepth := 1, visualStyle := vs
    attributedTo := none, attributionMethod := none }

/-- A depth-0 atom with empty style. -/
def mkDepth0Atom : Atom :=
  { id := "a1", messageId := "m", content := "c0", normalizedHash := "h0"
    sequenceIndex := 1, quoteDepth := 0, visualStyle := some "\x7b\x7d"
    attributedTo := none, attributionMethod := none }

/-- A collaborator whose message-record creation reports a duplicate. -/
def clientDup : ClientBehavior :=
  { clientOk with create_message := .error "message record already exists" }

/-- A collaborator whose message-record creation fails transiently. -/
def clientNetFail : ClientBehavior :=
  { clientOk with create_message := .error "ConnectionError: worker unreachable" }

/-- A collaborator whose transcript batch write fails. -/
def clientBatchFail : ClientBehavior :=
  { clientOk with batch_create_transcripts := .error "transcript write failed" }

/-- A collaborator whose analysis-summary write fails. -/
def clientAnalysisFail : ClientBehavior :=
  { clientOk with store_analysis := .error "analysis write failed" }

/-- The expected attribution of `mkDepth0Atom` by sender `"s@x"`. -/
def mkDepth0AtomOut : Atom :=
  { mkDepth0Atom with attributedTo := some "s@x", attributionMethod := some "HEADER_DEPTH_0" }

/-- The first atom `Atomizer.atomize depsInteriorGt parse0 "m1" "" "t"
(some "a@b")` produces. -/
def atomGt : Atom :=
  { id := "m1_0", messageId := "m1", content := "x > y."
    normalizedHash := "x > y.", sequenceIndex := 0, quoteDepth := 2
    visualStyle := some "\x7b\x7d", attributedTo := none
    attributionMethod := none }

/-- The single atom `Atomizer.atomize depsA parse0 "m" "" "x" none`
produces. -/
def atomA : Atom :=
  { id := "m_0", messageId := "m", content := "a.", normalizedHash := "a."
    sequenceIndex := 0, quoteDepth := 0, visualStyle := some "\x7b\x7d"
    attributedTo := none, attributionMethod := none }

/-- Recognizes the transcript batch write in a trace. -/
def isTranscriptWrite : Effect → Bool
  | .batchCreateTranscripts _ => true
  | _ => false

/-- Recognizes the analysis-summary write in a trace. -/
def isAnalysisWrite : Effect → Bool
  | .storeAnalysis => true
  | _ => false

/-- Number of effects of a given kind in a trace. -/
def countEffect (p : Effect → Bool) (tr : List Effect) : Nat :=
  (tr.filter p).length

/-! ## Sequence-index bookkeeping (claim C1) -/

theorem emitSentences_spec (ext : Deps) (mid : String) (d : Nat) (st : Style) :
    ∀ (sents : List String) (i : Nat),
      ((Atomizer.emitSentences ext mid d st sents i).1.map (·.sequenceIndex)
        = List.range' i (Atomizer.emitSentences ext mid d st sents i).1.length)
      ∧ (Atomizer.emitSentences ext mid d st sents i).2
        = i + (Atomizer.emitSentences ext mid d st sents i).1.length := by
  intro sents
  induction sents with
  | nil => intro i; simp [Atomizer.emitSentences]
  | cons s rest ih =>
    intro i
    by_cases h : pyStrip s = ""
    · simpa [Atomizer.emitSentences, h] using ih i
    · obtain ⟨ih1, ih2⟩ := ih (i + 1)
      refine ⟨?_, ?_⟩
      · simp only [Atomizer.emitSentences, h, if_false, List.map_cons,
          List.length_cons]
        rw [List.range'_succ]
        exact congrArg (i :: ·) ih1
      · simp only [Atomizer.emitSentences, h, if_false, List.length_cons]
        omega

theorem emitText_spec (ext : Deps) (mid s : String) (d : Nat) (st : Style)
    (i : Nat) :
    ((Atomizer.emitText ext mid s d st i).1.map (·.sequenceIndex)
      = List.range' i (Atomizer.emitText ext mid s d st i).1.length)
    ∧ (Atomizer.emitText ext mid s d st i).2
      = i + (Atomizer.emitText ext mid s d st i).1.length := by
  unfold Atomizer.emitText
  by_cases h : pyStrip s = ""
  · simp [h]
  · simpa [h] using emitSentences_spec ext mid d st (ext.sent_tokenize (pyStrip s)) i

theorem seq_map_append {α : Type} (f : α → Nat) (xs ys : List α) (i : Nat)
    (hx : xs.map f = List.range' i xs.length)
    (hy : ys.map f = List.range' (i + xs.length) ys.length) :
    (xs ++ ys).map f = List.range' i (xs ++ ys).length := by
  have h := List.range'_append i xs.length ys.length 1
  simp only [one_mul] at h
  rw [List.map_append, hx, hy, List.length_append, h,
    Nat.add_comm ys.length xs.length]

theorem traverseList_spec (ext : Deps) (mid : String) :
    ∀ (ns : List Node) (d : Nat) (st : Style) (i : Nat),
      ((Atomizer.traverseList ext mid ns d st i).1.map (·.sequenceIndex)
        = List.range' i (Atomizer.traverseList ext mid ns d st i).1.length)
      ∧ (Atomizer.traverseList ext mid ns d st i).2
        = i + (Atomizer.traverseList ext mid ns d st i).1.length := by
  intro ns d st i
  induction ns, d, st, i using Atomizer.traverseList.induct ext mid with
  | case1 d st i => simp [Atomizer.traverseList]
  | case2 s rest d st i r1 ih =>
    obtain ⟨e1, e2⟩ := emitText_spec ext mid s d st i
    obtain ⟨ih1, ih2⟩ := ih
    have hr1 : r1 = Atomizer.emitText ext mid s d st i := rfl
    rw [hr1] at ih1 ih2
    rw [e2] at ih1 ih2
    simp only [Atomizer.traverseList]
    constructor
    · refine seq_map_append _ _ _ i e1 ?_
      rw [e2]; exact ih1
    · rw [List.length_append, e2]; omega
  | case3 name attrs children rest d st i d' st' r1 ih1 ih1b ih2 =>
    clear ih1b
    obtain ⟨a1, a2⟩ := ih1
    obtain ⟨b1, b2⟩ := ih2
    have hd' : d' = if name = "blockquote" then d + 1 else d := rfl
    have hst' : st' = updateStyleTag name attrs st := rfl
    have hr1 : r1 = Atomizer.traverseList ext mid children d' st' i := rfl
    rw [hd', hst'] at a1 a2
    rw [hr1, hd', hst'] at b1 b2
    rw [a2] at b1 b2
    simp only [Atomizer.traverseList]
    constructor
    · refine seq_map_append _ _ _ i a1 ?_
      rw [a2]; exact b1
    · rw [List.length_append, a2]; omega

theorem atomizePlainGo_spec (ext : Deps) (mid : String) (sender : Option String) :
    ∀ (sents : List String) (i : Nat),
      (∀ s ∈ sents, pyStrip s ≠ "") →
      ((Atomizer.atomizePlainGo ext mid sender sents i).map (·.sequenceIndex)
        = List.range' i sents.length)
      ∧ (Atomizer.atomizePlainGo ext mid sender sents i).length = sents.length := by
  intro sents
  induction sents with
  | nil => intro i _; simp [Atomizer.atomizePlainGo]
  | cons s rest ih =>
    intro i h
    have hs : pyStrip s ≠ "" := h s (List.mem_cons_self s rest)
    obtain ⟨ih1, ih2⟩ := ih (i + 1) (fun t ht => h t (List.mem_cons_of_mem s ht))
    simp only [Atomizer.atomizePlainGo, hs, if_false, List.map_cons,
      List.length_cons]
    rw [List.range'_succ]
    exact ⟨congrArg (i :: ·) ih1, congrArg (· + 1) ih2⟩

/-- C1: every call to `Atomizer.atomize` — the HTML traversal as well as the
plain-text fallback — returns atoms whose `sequenceIndex` fields, in list
order, are exactly `0, 1, ..., N-1`, provided the sentence segmenter never
produces a whitespace-only sentence (true of the NLTK Punkt tokenizer the
source loads). -/
theorem claim_C1_sequence_indices (ext : Deps) (parseHtml : String → Node)
    (mid html plain : String) (sender : Option String)
    (hseg : ∀ t s, s ∈ ext.sent_tokenize t → pyStrip s ≠ "") :
    (Atomizer.atomize ext parseHtml mid html plain sender).map (·.sequenceIndex)
      = List.range (Atomizer.atomize ext parseHtml mid html plain sender).length := by
  unfold Atomizer.atomize
  split
  · unfold Atomizer.atomizePlain
    obtain ⟨h1, h2⟩ := atomizePlainGo_spec ext mid sender (ext.sent_tokenize plain) 0
      (fun s hs => hseg plain s hs)
    rw [List.range_eq_range', h2]
    exact h1
  · obtain ⟨h1, _⟩ := traverseList_spec ext mid [parseHtml html] 0 {} 0
    rw [List.range_eq_range']
    exact h1

/-- Witness for C1 at a concrete call (plain-text fallback, segmenter
returning the single sentence `"a."`). -/
theorem claim_C1_witness :
    (Atomizer.atomize depsA parse0 "m" "" "x" none).map (·.sequenceIndex)
      = List.range (Atomizer.atomize depsA parse0 "m" "" "x" none).length :=
  claim_C1_sequence_indices depsA parse0 "m" "" "x" none
    (by
      intro t s hs
      simp only [depsA, List.mem_singleton] at hs
      subst hs
      decide)

/-! ## Quote-depth behaviour of the traversal (claim C5) -/

theorem emitSentences_depth (ext : Deps) (mid : String) (d : Nat) (st : Style) :
    ∀ (sents : List String) (i : Nat) (a : Atom),
      a ∈ (Atomizer.emitSentences ext mid d st sents i).1 → a.quoteDepth = d := by
  intro sents
  induction sents with
  | nil => intro i a ha; simp [Atomizer.emitSentences] at ha
  | cons s rest ih =>
    intro i a ha
    by_cases h : pyStrip s = ""
    · simp only [Atomizer.emitSentences, h, if_true] at ha
      exact ih i a ha
    · simp only [Atomizer.emitSentences, h, if_false, List.mem_cons] at ha
      rcases ha with ha | ha
      · rw [ha]
      · exact ih (i + 1) a ha

theorem emitText_depth (ext : Deps) (mid s : String) (d : Nat) (st : Style)
    (i : Nat) (a : Atom) (ha : a ∈ (Atomizer.emitText ext mid s d st i).1) :
    a.quoteDepth = d := by
  unfold Atomizer.emitText at ha
  by_cases h : pyStrip s = ""
  · simp [h] at ha
  · simp only [h, if_false] at ha
    exact emitSentences_depth ext mid d st _ i a ha

theorem traverseList_depth_ge (ext : Deps) (mid : String) :
    ∀ (ns : List Node) (d : Nat) (st : Style) (i : Nat) (a : Atom),
      a ∈ (Atomizer.traverseList ext mid ns d st i).1 → d ≤ a.quoteDepth := by
  intro ns d st i
  induction ns, d, st, i using Atomizer.traverseList.induct ext mid with
  | case1 d st i => intro a ha; simp [Atomizer.traverseList] at ha
  | case2 s rest d st i r1 ih =>
    intro a ha
    simp only [Atomizer.traverseList, List.mem_append] at ha
    rcases ha with ha | ha
    · rw [emitText_depth ext mid s d st i a ha]
    · exact ih a ha
  | case3 name attrs children rest d st i d' st' r1 ih1 ih1b ih2 =>
    clear ih1
    intro a ha
    simp only [Atomizer.traverseList, List.mem_append] at ha
    rcases ha with ha | ha
    · have := ih1b a ha
      split at this <;> omega
    · exact ih2 a ha

theorem traverseList_blockquote (ext : Deps) (mid : String)
    (attrs : List (String × String)) (ch : List Node) (d : Nat) (st : Style)
    (i : Nat) :
    Atomizer.traverseList ext mid [Node.tag "blockquote" attrs ch] d st i
      = ((Atomizer.traverseList ext mid ch (d + 1)
            (updateStyleTag "blockquote" attrs st) i).1,
         (Atomizer.traverseList ext mid ch (d + 1)
            (updateStyleTag "blockquote" attrs st) i).2) := by
  simp [Atomizer.traverseList]

theorem traverseList_text (ext : Deps) (mid s : String) (d : Nat) (st : Style)
    (i : Nat) :
    Atomizer.traverseList ext mid [Node.text s] d st i
      = ((Atomizer.emitText ext mid s d st i).1,
         (Atomizer.emitText ext mid s d st i).2) := by
  simp [Atomizer.traverseList]

/-- C5: entering a quote-container (`blockquote`) element increments the
quote depth by 1 for its entire subtree (first conjunct: the traversal of a
`blockquote` is exactly the traversal of its children at depth `d + 1`);
the depth stamped on any atom emitted under an ambient depth `d` is never
less than `d` (second conjunct); and a doubly-nested quote container
compounds to depth `d + 2` for its atoms (third conjunct). -/
theorem claim_C5_quote_depth (ext : Deps) (mid : String) :
    (∀ (attrs : List (String × String)) (ch : List Node) (d : Nat)
       (st : Style) (i : Nat),
       Atomizer.traverseList ext mid [Node.tag "blockquote" attrs ch] d st i
         = ((Atomizer.traverseList ext mid ch (d + 1)
               (updateStyleTag "blockquote" attrs st) i).1,
            (Atomizer.traverseList ext mid ch (d + 1)
               (updateStyleTag "blockquote" attrs st) i).2))
    ∧ (∀ (ns : List Node) (d : Nat) (st : Style) (i : Nat) (a : Atom),
         a ∈ (Atomizer.traverseList ext mid ns d st i).1 → d ≤ a.quoteDepth)
    ∧ (∀ (attrs1 attrs2 : List (String × String)) (s : String) (d : Nat)
         (st : Style) (i : Nat) (a : Atom),
         a ∈ (Atomizer.traverseList ext mid
               [Node.tag "blockquote" attrs1
                 [Node.tag "blockquote" attrs2 [Node.text s]]] d st i).1 →
           a.quoteDepth = d + 2) := by
  refine ⟨traverseList_blockquote ext mid, traverseList_depth_ge ext mid, ?_⟩
  intro attrs1 attrs2 s d st i a ha
  rw [traverseList_blockquote, traverseList_blockquote, traverseList_text] at ha
  exact emitText_depth ext mid s (d + 1 + 1) _ i a ha

/-- Witness for C5: the single atom of a concrete doubly-nested blockquote
is stamped with depth `0 + 2`. -/
theorem claim_C5_witness :
    (⟨"m_0", "m", "a.", "a.", 0, 2, some "\x7b\x7d", none, none, none⟩ : Atom).quoteDepth
      = 0 + 2 :=
  (claim_C5_quote_depth depsA "m").2.2 [] [] "x." 0 {} 0 _
    (by
      rw [traverseList_blockquote, traverseList_blockquote, traverseList_text]
      exact List.mem_singleton.mpr rfl)

/-! ## Pipeline idempotency gate and persistence failures (claims C2, C8, C9) -/

/-- C2: when the initial `create_message` call reports that the record
already exists, `process_message` returns `skipped` and performs none of
atomize, attribution, classification or transcript writes (its trace is the
single record-creation attempt); consequently, in the record-store model of
the persistence collaborator, submitting the same `message_id` a second time
yields `skipped` with zero new transcript writes. -/
theorem claim_C2_idempotency_gate :
    (∀ (ext : Deps) (parseHtml : String → Node) (client : ClientBehavior)
       (mid html plain : String) (fa : Option String) (e : String),
       client.create_message = .error e →
       ACREPipeline.process_message ext parseHtml client mid html plain fa
         = ([.createMessage], .ok { status := "skipped", reason := some "duplicate" }))
    ∧ (∀ (ext : Deps) (parseHtml : String → Node) (rest : ClientBehavior)
         (store : List String) (mid html plain : String) (fa : Option String),
       ACREPipeline.process_message ext parseHtml
           (ACREPipeline.clientForStore (ACREPipeline.storeAfter store mid) mid rest)
           mid html plain fa
         = ([.createMessage], .ok { status := "skipped", reason := some "duplicate" })) := by
  constructor
  · intro ext parseHtml client mid html plain fa e h
    simp [ACREPipeline.process_message, h]
  · intro ext parseHtml rest store mid html plain fa
    have hmem : mid ∈ ACREPipeline.storeAfter store mid := by
      unfold ACREPipeline.storeAfter
      split
      · assumption
      · exact List.mem_cons_self mid store
    simp [ACREPipeline.process_message, ACREPipeline.clientForStore, hmem]

/-- Witness for C2 at a concrete duplicate-reporting collaborator. -/
theorem claim_C2_witness :
    ACREPipeline.process_message depsA parse0 clientDup "m" "" "" none
      = ([.createMessage], .ok { status := "skipped", reason := some "duplicate" }) :=
  claim_C2_idempotency_gate.1 depsA parse0 clientDup "m" "" "" none
    "message record already exists" rfl

/-- C9: any exception whatsoever raised by the initial `create_message` call
— not only a duplicate-record response — makes `process_message` return
`{"status": "skipped", "reason": "duplicate"}`: the result is a normal
return (never a propagated error), and no further pipeline step runs. -/
theorem claim_C9_any_create_failure_skipped (ext : Deps)
    (parseHtml : String → Node) (client : ClientBehavior)
    (mid html plain : String) (fa : Option String) (e : String)
    (h : client.create_message = .error e) :
    (ACREPipeline.process_message ext parseHtml client mid html plain fa).2
        = .ok { status := "skipped", reason := some "duplicate" }
    ∧ (∀ e', (ACREPipeline.process_message ext parseHtml client mid html plain fa).2
        ≠ .error e')
    ∧ (ACREPipeline.process_message ext parseHtml client mid html plain fa).1
        = [.createMessage] := by
  simp [ACREPipeline.process_message, h]

/-- Witness for C9 at a concrete transiently-failing collaborator. -/
theorem claim_C9_witness :
    (ACREPipeline.process_message depsA parse0 clientNetFail "m" "" "" none).2
        = .ok { status := "skipped", reason := some "duplicate" }
    ∧ (∀ e', (ACREPipeline.process_message depsA parse0 clientNetFail "m" "" "" none).2
        ≠ .error e')
    ∧ (ACREPipeline.process_message depsA parse0 clientNetFail "m" "" "" none).1
        = [.createMessage] :=
  claim_C9_any_create_failure_skipped depsA parse0 clientNetFail "m" "" "" none
    "ConnectionError: worker unreachable" rfl

/-- C8 counterexample: at a concrete fresh-path message whose transcript
batch write fails, `process_message` does not return any status at all — the
exception propagates out of the call — so in particular it does not return
`status = "error"`. -/
theorem claim_C8_counterexample :
    (ACREPipeline.process_message depsNoSent parse0 clientBatchFail "m" "" "x" none).2
        = .error "transcript write failed"
    ∧ ∀ r : PResult,
        (ACREPipeline.process_message depsNoSent parse0 clientBatchFail "m" "" "x" none).2
          ≠ .ok r :=
  ⟨rfl, fun _ h => Except.noConfusion h⟩

/-- C8 (amended): on the fresh path (record creation succeeded, attribution
completed), a failure of the terminal persistence step — the transcript
batch write or the analysis-summary write — makes `process_message` raise
that exception (it propagates as `.error e` rather than being returned as
one of the declared statuses), the failing write having been attempted
exactly once with no retry inside the component; handling the propagated
exception is left entirely to the caller. -/
theorem claim_C8_amended_persistence_failure (ext : Deps)
    (parseHtml : String → Node) (client : ClientBehavior)
    (mid html plain : String) (fa : Option String) (att : List Atom)
    (e : String)
    (hc : client.create_message = .ok ())
    (hattr : AttributionEngine.attribute_atoms
        (Atomizer.atomize ext parseHtml mid html plain fa) fa = .ok att) :
    (client.batch_create_transcripts = .error e →
       (ACREPipeline.process_message ext parseHtml client mid html plain fa).2
           = .error e
       ∧ countEffect isTranscriptWrite
           (ACREPipeline.process_message ext parseHtml client mid html plain fa).1
           = 1)
    ∧ (client.batch_create_transcripts = .ok () →
       client.store_analysis = .error e →
       (ACREPipeline.process_message ext parseHtml client mid html plain fa).2
           = .error e
       ∧ countEffect isAnalysisWrite
           (ACREPipeline.process_message ext parseHtml client mid html plain fa).1
           = 1) := by
  constructor
  · intro hb
    cases hcb : client.classify_batch with
    | ok results =>
      simp [ACREPipeline.process_message, hc, hattr, hb, hcb,
        countEffect, isTranscriptWrite, Effect.createMessage]
    | error err =>
      simp [ACREPipeline.process_message, hc, hattr, hb, hcb,
        countEffect, isTranscriptWrite]
  · intro hb hs
    cases hcb : client.classify_batch with
    | ok results =>
      simp [ACREPipeline.process_message, hc, hattr, hb, hs, hcb,
        countEffect, isAnalysisWrite]
    | error err =>
      simp [ACREPipeline.process_message, hc, hattr, hb, hs, hcb,
        countEffect, isAnalysisWrite]

/-- Witness for the amended C8 at a concrete failing transcript write. -/
theorem claim_C8_witness :
    (ACREPipeline.process_message depsNoSent parse0 clientBatchFail "m" "" "x" none).2
        = .error "transcript write failed"
    ∧ countEffect isTranscriptWrite
        (ACREPipeline.process_message depsNoSent parse0 clientBatchFail "m" "" "x" none).1
        = 1 :=
  (claim_C8_amended_persistence_failure depsNoSent parse0 clientBatchFail
      "m" "" "x" none [] "transcript write failed" rfl rfl).1 rfl

/-! ## Attribution policy (claims C3 and C6) -/

theorem attribute_atoms_ok_length (sender : Option String) :
    ∀ (atoms res : List Atom),
      AttributionEngine.attribute_atoms atoms sender = .ok res →
      res.length = atoms.length := by
  intro atoms
  induction atoms with
  | nil =>
    intro res h
    simp only [AttributionEngine.attribute_atoms, Except.ok.injEq] at h
    rw [← h]
  | cons a rest ih =>
    intro res h
    unfold AttributionEngine.attribute_atoms at h
    cases h1 : AttributionEngine.attributeOne sender a with
    | error e => rw [h1] at h; exact absurd h (by simp)
    | ok a' =>
      rw [h1] at h
      cases h2 : AttributionEngine.attribute_atoms rest sender with
      | error e => rw [h2] at h; exact absurd h (by simp)
      | ok rest' =>
        rw [h2] at h
        simp only [Except.ok.injEq] at h
        rw [← h]
        simp [ih rest' h2]

theorem attribute_atoms_ok_get (sender : Option String) :
    ∀ (atoms res : List Atom),
      AttributionEngine.attribute_atoms atoms sender = .ok res →
      ∀ (i : Nat) (hi : i < atoms.length) (hi' : i < res.length),
        AttributionEngine.attributeOne sender (atoms.get ⟨i, hi⟩)
          = .ok (res.get ⟨i, hi'⟩) := by
  intro atoms
  induction atoms with
  | nil => intro res h i hi; exact absurd hi (by simp)
  | cons a rest ih =>
    intro res h i hi hi'
    unfold AttributionEngine.attribute_atoms at h
    cases h1 : AttributionEngine.attributeOne sender a with
    | error e => rw [h1] at h; exact absurd h (by simp)
    | ok a' =>
      rw [h1] at h
      cases h2 : AttributionEngine.attribute_atoms rest sender with
      | error e => rw [h2] at h; exact absurd h (by simp)
      | ok rest' =>
        rw [h2] at h
        simp only [Except.ok.injEq] at h
        subst h
        cases i with
        | zero => exact h1
        | succ j => exact ih rest' h2 j (by simpa using hi) (by simpa using hi')

theorem attributeOne_policy (sender : Option String) (a r : Atom)
    (vs : List (String × String))
    (h : AttributionEngine.attributeOne sender a = .ok r)
    (hvs : jsonLoadsFlat (a.visualStyle.getD "\x7b\x7d") = .ok vs) :
    (a.quoteDepth = 0 →
       r.attributedTo = sender ∧ r.attributionMethod = some "HEADER_DEPTH_0")
    ∧ (a.quoteDepth ≠ 0 → AttributionEngine.isAggressiveStyle vs = true →
       r.attributedTo = sender
         ∧ r.attributionMethod = some "STYLE_INFERENCE_INTERJECTION")
    ∧ (a.quoteDepth ≠ 0 → AttributionEngine.isAggressiveStyle vs = false →
       r.attributedTo = some UNRESOLVED_QUOTED_PARTY
         ∧ r.attributionMethod = some "QUOTE_DEPTH") := by
  unfold AttributionEngine.attributeOne at h
  rw [hvs] at h
  dsimp only at h
  by_cases hd : a.quoteDepth = 0
  · rw [if_pos hd] at h
    simp only [Except.ok.injEq] at h
    subst h
    exact ⟨fun _ => ⟨rfl, rfl⟩, fun h0 => absurd hd h0, fun h0 => absurd hd h0⟩
  · rw [if_neg hd] at h
    by_cases hs : AttributionEngine.isAggressiveStyle vs = true
    · rw [if_pos hs] at h
      simp only [Except.ok.injEq] at h
      subst h
      exact ⟨fun h0 => absurd h0 hd, fun _ _ => ⟨rfl, rfl⟩,
        fun _ hf => absurd hs (by rw [hf]; simp)⟩
    · rw [if_neg hs] at h
      simp only [Except.ok.injEq] at h
      subst h
      exact ⟨fun h0 => absurd h0 hd, fun _ ht => absurd ht hs,
        fun _ _ => ⟨rfl, rfl⟩⟩

theorem attributeOne_ok_of_parse (sender : Option String) (a : Atom)
    (vs : List (String × String))
    (hvs : jsonLoadsFlat (a.visualStyle.getD "\x7b\x7d") = .ok vs) :
    ∃ r, AttributionEngine.attributeOne sender a = .ok r := by
  unfold AttributionEngine.attributeOne
  rw [hvs]
  dsimp only
  split
  · exact ⟨_, rfl⟩
  · split
    · exact ⟨_, rfl⟩
    · exact ⟨_, rfl⟩

theorem attributeOne_error_of_parse (sender : Option String) (a : Atom)
    (e : String)
    (he : jsonLoadsFlat (a.visualStyle.getD "\x7b\x7d") = .error e) :
    AttributionEngine.attributeOne sender a = .error e := by
  unfold AttributionEngine.attributeOne
  rw [he]

/-- C3: `attribute_atoms` applies the fixed per-atom policy — depth 0 gets
`(sender, HEADER_DEPTH_0)`; depth > 0 with a red-family color, bold weight
or uppercase transform gets `(sender, STYLE_INFERENCE_INTERJECTION)`; any
other depth > 0 atom gets `(UNRESOLVED_QUOTED_PARTY, QUOTE_DEPTH)` — and in
particular a depth-1 atom with red color, bold or uppercase style always
becomes a sender interjection, while a depth-1 atom with empty style is
always `(UNRESOLVED_QUOTED_PARTY, QUOTE_DEPTH)`. -/
theorem claim_C3_attribution_policy (sender : Option String) :
    (∀ (atoms res : List Atom),
       AttributionEngine.attribute_atoms atoms sender = .ok res →
       res.length = atoms.length
       ∧ ∀ (i : Nat) (hi : i < atoms.length) (hi' : i < res.length)
           (vs : List (String × String)),
           jsonLoadsFlat ((atoms.get ⟨i, hi⟩).visualStyle.getD "\x7b\x7d") = .ok vs →
           ((atoms.get ⟨i, hi⟩).quoteDepth = 0 →
              (res.get ⟨i, hi'⟩).attributedTo = sender
                ∧ (res.get ⟨i, hi'⟩).attributionMethod = some "HEADER_DEPTH_0")
           ∧ ((atoms.get ⟨i, hi⟩).quoteDepth ≠ 0 →
              AttributionEngine.isAggressiveStyle vs = true →
              (res.get ⟨i, hi'⟩).attributedTo = sender
                ∧ (res.get ⟨i, hi'⟩).attributionMethod
                    = some "STYLE_INFERENCE_INTERJECTION")
           ∧ ((atoms.get ⟨i, hi⟩).quoteDepth ≠ 0 →
              AttributionEngine.isAggressiveStyle vs = false →
              (res.get ⟨i, hi'⟩).attributedTo = some UNRESOLVED_QUOTED_PARTY
                ∧ (res.get ⟨i, hi'⟩).attributionMethod = some "QUOTE_DEPTH"))
    ∧ (AttributionEngine.attribute_atoms
         [mkDepth1Atom (some "\x7b\x22color\x22: \x22red\x22\x7d")] sender
         = .ok [{ mkDepth1Atom (some "\x7b\x22color\x22: \x22red\x22\x7d") with
                    attributedTo := sender
                    attributionMethod := some "STYLE_INFERENCE_INTERJECTION" }])
    ∧ (AttributionEngine.attribute_atoms
         [mkDepth1Atom (some "\x7b\x22font_weight\x22: \x22bold\x22\x7d")] sender
         = .ok [{ mkDepth1Atom (some "\x7b\x22font_weight\x22: \x22bold\x22\x7d") with
                    attributedTo := sender
                    attributionMethod := some "STYLE_INFERENCE_INTERJECTION" }])
    ∧ (AttributionEngine.attribute_atoms
         [mkDepth1Atom (some "\x7b\x22text_transform\x22: \x22uppercase\x22\x7d")] sender
         = .ok [{ mkDepth1Atom (some "\x7b\x22text_transform\x22: \x22uppercase\x22\x7d") with
                    attributedTo := sender
                    attributionMethod := some "STYLE_INFERENCE_INTERJECTION" }])
    ∧ (AttributionEngine.attribute_atoms [mkDepth1Atom (some "\x7b\x7d")] sender
         = .ok [{ mkDepth1Atom (some "\x7b\x7d") with
                    attributedTo := some UNRESOLVED_QUOTED_PARTY
                    attributionMethod := some "QUOTE_DEPTH" }]) := by
  refine ⟨?_, rfl, rfl, rfl, rfl⟩
  intro atoms res h
  refine ⟨attribute_atoms_ok_length sender atoms res h, ?_⟩
  intro i hi hi' vs hvs
  exact attributeOne_policy sender (atoms.get ⟨i, hi⟩) (res.get ⟨i, hi'⟩) vs
    (attribute_atoms_ok_get sender atoms res h i hi hi') hvs

/-- Witness for C3: the depth-0 policy at a concrete batch. -/
theorem claim_C3_witness :
    ([mkDepth0AtomOut].get ⟨0, Nat.zero_lt_one⟩).attributedTo = some "s@x"
    ∧ ([mkDepth0AtomOut].get ⟨0, Nat.zero_lt_one⟩).attributionMethod
        = some "HEADER_DEPTH_0" :=
  (((claim_C3_attribution_policy (some "s@x")).1 [mkDepth0Atom]
      [mkDepth0AtomOut] rfl).2 0 Nat.zero_lt_one Nat.zero_lt_one [] rfl).1 rfl

/-- C6 counterexample: a batch containing one atom whose `visualStyle` is
the empty string (or any malformed JSON document) makes `attribute_atoms`
raise — the whole call errors, aborting attribution of the remaining,
well-formed atom of the batch. -/
theorem claim_C6_counterexample :
    AttributionEngine.attribute_atoms [mkDepth1Atom (some ""), mkDepth0Atom]
        (some "s@x") = .error "Expecting value"
    ∧ AttributionEngine.attribute_atoms [mkDepth1Atom (some "not json"), mkDepth0Atom]
        (some "s@x") = .error "Expecting value"
    ∧ AttributionEngine.attribute_atoms [mkDepth0Atom] (some "s@x")
        = .ok [mkDepth0AtomOut] :=
  ⟨rfl, rfl, rfl⟩

/-- C6 (amended): an atom whose `visualStyle` key is missing is treated as
having an empty style and never fails (first conjunct); a batch all of whose
present `visualStyle` strings are well-formed JSON is attributed without
raising (second conjunct); but an atom whose `visualStyle` is present and
malformed — the empty string included — raises the JSON decode error and
aborts attribution of the entire batch, the atoms after it included (third
conjunct). -/
theorem claim_C6_amended_style_tolerance :
    (∀ (sender : Option String) (a : Atom), a.visualStyle = none →
       (a.quoteDepth = 0 →
          AttributionEngine.attributeOne sender a
            = .ok { a with attributedTo := sender
                           attributionMethod := some "HEADER_DEPTH_0" })
       ∧ (a.quoteDepth ≠ 0 →
          AttributionEngine.attributeOne sender a
            = .ok { a with attributedTo := some UNRESOLVED_QUOTED_PARTY
                           attributionMethod := some "QUOTE_DEPTH" }))
    ∧ (∀ (sender : Option String) (atoms : List Atom),
        (∀ a ∈ atoms, ∃ vs, jsonLoadsFlat (a.visualStyle.getD "\x7b\x7d") = .ok vs) →
        ∃ res, AttributionEngine.attribute_atoms atoms sender = .ok res)
    ∧ (∀ (sender : Option String) (pre : List Atom) (a : Atom)
         (rest : List Atom) (e : String),
        (∀ b ∈ pre, ∃ vs, jsonLoadsFlat (b.visualStyle.getD "\x7b\x7d") = .ok vs) →
        jsonLoadsFlat (a.visualStyle.getD "\x7b\x7d") = .error e →
        AttributionEngine.attribute_atoms (pre ++ a :: rest) sender = .error e) := by
  refine ⟨?_, ?_, ?_⟩
  · intro sender a hnone
    have hload : jsonLoadsFlat (a.visualStyle.getD "\x7b\x7d") = .ok [] := by
      rw [hnone]; rfl
    constructor
    · intro hd
      unfold AttributionEngine.attributeOne
      rw [hload]
      dsimp only
      rw [if_pos hd]
    · intro hd
      unfold AttributionEngine.attributeOne
      rw [hload]
      dsimp only
      rw [if_neg hd, if_neg (by decide :
        ¬ AttributionEngine.isAggressiveStyle [] = true)]
  · intro sender atoms
    induction atoms with
    | nil => intro _; exact ⟨[], rfl⟩
    | cons a rest ih =>
      intro h
      obtain ⟨vs, hvs⟩ := h a (List.mem_cons_self a rest)
      obtain ⟨r, hr⟩ := attributeOne_ok_of_parse sender a vs hvs
      obtain ⟨res, hres⟩ := ih (fun b hb => h b (List.mem_cons_of_mem a hb))
      refine ⟨r :: res, ?_⟩
      unfold AttributionEngine.attribute_atoms
      rw [hr, hres]
  · intro sender pre
    induction pre with
    | nil =>
      intro a rest e _ he
      have := attributeOne_error_of_parse sender a e he
      simp only [List.nil_append]
      unfold AttributionEngine.attribute_atoms
      rw [this]
    | cons b pre' ih =>
      intro a rest e h he
      obtain ⟨vs, hvs⟩ := h b (List.mem_cons_self b pre')
      obtain ⟨r, hr⟩ := attributeOne_ok_of_parse sender b vs hvs
      have := ih a rest e (fun c hc => h c (List.mem_cons_of_mem b hc)) he
      simp only [List.cons_append]
      unfold AttributionEngine.attribute_atoms
      rw [hr, this]

/-- Witness for the amended C6: a depth-1 atom with the `visualStyle` key
missing is attributed `(UNRESOLVED_QUOTED_PARTY, QUOTE_DEPTH)` without
raising. -/
theorem claim_C6_witness :
    AttributionEngine.attributeOne (some "s@x") (mkDepth1Atom none)
      = .ok { mkDepth1Atom none with
                attributedTo := some UNRESOLVED_QUOTED_PARTY
                attributionMethod := some "QUOTE_DEPTH" } :=
  (claim_C6_amended_style_tolerance.1 (some "s@x") (mkDepth1Atom none) rfl).2
    (by decide)

/-! ## Plain-text fallback behaviour (claim C7) -/

/-- C7 counterexample: in the plain-text fallback, a sentence `"> x > y."`
(one leading quote marker, one interior `>`) is stamped `quoteDepth = 2` —
`sent_text.count(">")` counts every `>` in the sentence, not the leading
markers — and the depth-0 atom of the same message carries no
`attributionMethod` at all (the fallback never writes that key), not
`HEADER_DEPTH_0`. -/
theorem claim_C7_counterexample :
    ((Atomizer.atomize depsInteriorGt parse0 "m1" "" "t" (some "a@b")).map
        (·.quoteDepth) = [2, 0])
    ∧ ((pyStrip "> x > y.").data.takeWhile (· = '>')).length = 1
    ∧ ((Atomizer.atomize depsInteriorGt parse0 "m1" "" "t" (some "a@b")).map
        (·.attributionMethod) = [none, none])
    ∧ ((Atomizer.atomize depsInteriorGt parse0 "m1" "" "t" (some "a@b")).map
        (·.attributedTo) = [none, some "a@b"]) :=
  ⟨rfl, rfl, rfl, rfl⟩

theorem atomizePlainGo_mem (ext : Deps) (mid : String) (sender : Option String) :
    ∀ (sents : List String) (i : Nat) (a : Atom),
      a ∈ Atomizer.atomizePlainGo ext mid sender sents i →
      ∃ sent ∈ sents,
        pyStrip sent ≠ ""
        ∧ (((pyStrip sent).data.headD ' ' = '>'
              ∧ a.quoteDepth = (pyStrip sent).data.count '>'
              ∧ a.content
                  = pyStrip ⟨(pyStrip sent).data.dropWhile (fun c => c = '>' ∨ c = ' ')⟩)
           ∨ ((pyStrip sent).data.headD ' ' ≠ '>'
              ∧ a.quoteDepth = 0
              ∧ a.content = pyStrip sent))
        ∧ a.attributedTo = (if a.quoteDepth = 0 then sender else none)
        ∧ a.attributionMethod = none := by
  intro sents
  induction sents with
  | nil => intro i a ha; simp [Atomizer.atomizePlainGo] at ha
  | cons s rest ih =>
    intro i a ha
    by_cases hs : pyStrip s = ""
    · simp only [Atomizer.atomizePlainGo, hs, if_pos rfl] at ha
      obtain ⟨sent, hmem, hp⟩ := ih (i + 1) a ha
      exact ⟨sent, List.mem_cons_of_mem s hmem, hp⟩
    · simp only [Atomizer.atomizePlainGo, hs, if_false, List.mem_cons] at ha
      rcases ha with ha | ha
      · subst ha
        by_cases hgt : (pyStrip s).data.headD ' ' = '>'
        · exact ⟨s, List.mem_cons_self s rest, hs,
            Or.inl ⟨hgt, by dsimp only; rw [if_pos hgt], by dsimp only; rw [if_pos hgt]⟩,
            rfl, rfl⟩
        · exact ⟨s, List.mem_cons_self s rest, hs,
            Or.inr ⟨hgt, by dsimp only; rw [if_neg hgt], by dsimp only; rw [if_neg hgt]⟩,
            rfl, rfl⟩
      · obtain ⟨sent, hmem, hp⟩ := ih (i + 1) a ha
        exact ⟨sent, List.mem_cons_of_mem s hmem, hp⟩

/-- C7 (amended): in the plain-text fallback every atom comes from a
non-blank stripped sentence; if that sentence starts with `>`, its
`quoteDepth` is the total number of `>` characters occurring anywhere in
the sentence (not merely the leading markers) and the stored content has
leading `>` and space characters stripped; otherwise the depth is 0 and the
content is the stripped sentence.  Depth-0 atoms get `attributedTo =
sender` and deeper ones stay unattributed, and the fallback leaves
`attributionMethod` unset for every atom (`HEADER_DEPTH_0` is only assigned
by the attribution stage that runs later in the pipeline). -/
theorem claim_C7_amended_plain_fallback (ext : Deps)
    (parseHtml : String → Node) (mid plain : String) (sender : Option String)
    (hplain : plain ≠ "") :
    ∀ a ∈ Atomizer.atomize ext parseHtml mid "" plain sender,
      ∃ sent ∈ ext.sent_tokenize plain,
        pyStrip sent ≠ ""
        ∧ (((pyStrip sent).data.headD ' ' = '>'
              ∧ a.quoteDepth = (pyStrip sent).data.count '>'
              ∧ a.content
                  = pyStrip ⟨(pyStrip sent).data.dropWhile (fun c => c = '>' ∨ c = ' ')⟩)
           ∨ ((pyStrip sent).data.headD ' ' ≠ '>'
              ∧ a.quoteDepth = 0
              ∧ a.content = pyStrip sent))
        ∧ a.attributedTo = (if a.quoteDepth = 0 then sender else none)
        ∧ a.attributionMethod = none := by
  intro a ha
  unfold Atomizer.atomize at ha
  rw [if_pos ⟨rfl, hplain⟩] at ha
  exact atomizePlainGo_mem ext mid sender (ext.sent_tokenize plain) 0 a ha

/-- Witness for the amended C7 at the concrete interior-`>` sentence. -/
theorem claim_C7_witness :
    ∃ sent ∈ depsInteriorGt.sent_tokenize "t",
      pyStrip sent ≠ ""
      ∧ (((pyStrip sent).data.headD ' ' = '>'
            ∧ atomGt.quoteDepth = (pyStrip sent).data.count '>'
            ∧ atomGt.content
                = pyStrip ⟨(pyStrip sent).data.dropWhile (fun c => c = '>' ∨ c = ' ')⟩)
         ∨ ((pyStrip sent).data.headD ' ' ≠ '>'
            ∧ atomGt.quoteDepth = 0
            ∧ atomGt.content = pyStrip sent))
      ∧ atomGt.attributedTo = (if atomGt.quoteDepth = 0 then some "a@b" else none)
      ∧ atomGt.attributionMethod = none :=
  claim_C7_amended_plain_fallback depsInteriorGt parse0 "m1" "t" (some "a@b")
    (by decide) atomGt (by decide)

/-! ## Quote verification (claim C4) -/

/-- C4: assuming the hash primitive is injective (collision-free on the
inputs in play, the modelling assumption for SHA-256), `verify_quote`
returns `(true, none)` exactly when the two texts have equal normalized
forms — normalization lowercases, collapses whitespace runs and trims — so
`verify_quote x x = (true, none)` for every `x`, the concrete
case/whitespace variant scenario matches, and any normalized mismatch
returns `false` together with the rendered diff markup of
`(original, quote)`. -/
theorem claim_C4_verify_quote (ext : Deps)
    (hinj : Function.Injective ext.sha256) :
    (∀ quote original : String,
       VerificationEngine.verify_quote ext quote original = (true, none)
         ↔ VerificationEngine.normalize_content quote
             = VerificationEngine.normalize_content original)
    ∧ (∀ x : String, VerificationEngine.verify_quote ext x x = (true, none))
    ∧ VerificationEngine.verify_quote ext "The deadline is Friday."
        "the   deadline is friday." = (true, none)
    ∧ (∀ quote original : String,
       VerificationEngine.normalize_content quote
           ≠ VerificationEngine.normalize_content original →
       VerificationEngine.verify_quote ext quote original
         = (false, some (ext.diff_prettyHtml original quote))) := by
  have key : ∀ quote original : String,
      VerificationEngine.verify_quote ext quote original = (true, none)
        ↔ VerificationEngine.normalize_content quote
            = VerificationEngine.normalize_content original := by
    intro quote original
    unfold VerificationEngine.verify_quote VerificationEngine.compute_hash
    by_cases h : ext.sha256 (VerificationEngine.normalize_content quote)
        = ext.sha256 (VerificationEngine.normalize_content original)
    · rw [if_pos h]
      exact ⟨fun _ => hinj h, fun _ => rfl⟩
    · rw [if_neg h]
      constructor
      · intro hfalse
        exact absurd hfalse (by simp)
      · intro heq
        exact absurd (congrArg ext.sha256 heq) h
  refine ⟨key, ?_, ?_, ?_⟩
  · intro x
    exact (key x x).mpr rfl
  · exact (key _ _).mpr rfl
  · intro quote original hne
    unfold VerificationEngine.verify_quote VerificationEngine.compute_hash
    rw [if_neg (fun h => hne (hinj h))]

/-- Witness for C4: the spec's case/whitespace scenario at the injective
identity hash. -/
theorem claim_C4_witness :
    VerificationEngine.verify_quote depsA "The deadline is Friday."
      "the   deadline is friday." = (true, none) :=
  (claim_C4_verify_quote depsA (fun _ _ h => h)).2.2.1

/-! ## Whitespace-collapse characterization (claim C10) -/

theorem splitAuxWS_wsfree :
    ∀ (l : List Char), ∀ w ∈ splitAuxWS l, ∀ c ∈ w, pyIsSpace c = false := by
  intro l
  induction l with
  | nil => intro w hw; simp [splitAuxWS] at hw
  | cons c l ih =>
    intro w hw cc hcc
    by_cases hc : pyIsSpace c
    · rw [splitAuxWS, if_pos hc] at hw
      rcases List.mem_cons.mp hw with hw | hw
      · subst hw; simp at hcc
      · exact ih w hw cc hcc
    · rw [splitAuxWS, if_neg hc] at hw
      cases hsp : splitAuxWS l with
      | nil =>
        rw [hsp] at hw
        simp only [List.mem_singleton] at hw
        subst hw
        rcases List.mem_singleton.mp hcc with rfl
        simpa using hc
      | cons w' ws' =>
        rw [hsp] at hw
        rcases List.mem_cons.mp hw with hw | hw
        · subst hw
          rcases List.mem_cons.mp hcc with rfl | hcc
          · simpa using hc
          · exact ih w' (by rw [hsp]; exact List.mem_cons_self w' ws') cc hcc
        · exact ih w (by rw [hsp]; exact List.mem_cons_of_mem w' hw) cc hcc

theorem pySplitWS_words (l : List Char) :
    ∀ w ∈ pySplitWS l, w ≠ [] ∧ ∀ c ∈ w, pyIsSpace c = false := by
  intro w hw
  unfold pySplitWS at hw
  obtain ⟨hmem, hne⟩ := List.mem_filter.mp hw
  exact ⟨by simpa using hne, splitAuxWS_wsfree l w hmem⟩

theorem noLeadWS_of_wsfree (w : List Char)
    (h : ∀ c ∈ w, pyIsSpace c = false) : noLeadWS w = true := by
  cases w with
  | nil => rfl
  | cons c t => simp [noLeadWS, h c (List.mem_cons_self c t)]

theorem noLeadWS_append_of_ne_nil (w r : List Char) (h : w ≠ []) :
    noLeadWS (w ++ r) = noLeadWS w := by
  cases w with
  | nil => exact absurd rfl h
  | cons c t => rfl

theorem noAdjWS_cons (c : Char) (t : List Char)
    (h : noAdjWS (c :: t) = true) : noAdjWS t = true := by
  cases t with
  | nil => rfl
  | cons d t' =>
    rw [noAdjWS, Bool.and_eq_true] at h
    exact h.2

theorem noAdjWS_of_wsfree (w : List Char)
    (h : ∀ c ∈ w, pyIsSpace c = false) : noAdjWS w = true := by
  induction w with
  | nil => rfl
  | cons c t ih =>
    cases t with
    | nil => rfl
    | cons d t' =>
      rw [noAdjWS, Bool.and_eq_true]
      refine ⟨?_, ih (fun x hx => h x (List.mem_cons_of_mem c hx))⟩
      simp [h c (List.mem_cons_self c _)]

theorem noAdjWS_wsfree_append (xs ys : List Char)
    (hx : ∀ c ∈ xs, pyIsSpace c = false) (hy : noAdjWS ys = true) :
    noAdjWS (xs ++ ys) = true := by
  induction xs with
  | nil => simpa using hy
  | cons c xs' ih =>
    have hc : pyIsSpace c = false := hx c (List.mem_cons_self c xs')
    have ih' := ih (fun x hxm => hx x (List.mem_cons_of_mem c hxm))
    cases hxy : xs' ++ ys with
    | nil => rw [List.cons_append, hxy]; rfl
    | cons d t =>
      rw [List.cons_append, hxy, noAdjWS, Bool.and_eq_true]
      refine ⟨by simp [hc], ?_⟩
      rw [← hxy]
      exact ih'

theorem noAdjWS_cons_space (j : List Char) (hl : noLeadWS j = true)
    (ha : noAdjWS j = true) : noAdjWS (' ' :: j) = true := by
  cases j with
  | nil => rfl
  | cons d t =>
    rw [noAdjWS, Bool.and_eq_true]
    refine ⟨?_, ha⟩
    rw [noLeadWS] at hl
    simp only [Bool.not_eq_eq_eq_not, Bool.not_true] at hl
    simp [hl]

theorem joinWords_cons_cons (w u : List Char) (us : List (List Char)) :
    joinWords (w :: u :: us) = w ++ ' ' :: joinWords (u :: us) := rfl

theorem joinWords_ne_nil (ws : List (List Char)) (h : ws ≠ [])
    (hw : ∀ w ∈ ws, w ≠ []) : joinWords ws ≠ [] := by
  cases ws with
  | nil => exact absurd rfl h
  | cons w ws' =>
    cases ws' with
    | nil => exact hw w (List.mem_cons_self w [])
    | cons u us => simp [joinWords_cons_cons]

theorem joinWords_noLead (ws : List (List Char))
    (h : ∀ w ∈ ws, w ≠ [] ∧ ∀ c ∈ w, pyIsSpace c = false) :
    noLeadWS (joinWords ws) = true := by
  cases ws with
  | nil => rfl
  | cons w ws' =>
    obtain ⟨hne, hfree⟩ := h w (List.mem_cons_self w ws')
    cases ws' with
    | nil => exact noLeadWS_of_wsfree w hfree
    | cons u us =>
      rw [joinWords_cons_cons, noLeadWS_append_of_ne_nil w _ hne]
      exact noLeadWS_of_wsfree w hfree

theorem joinWords_noTrail (ws : List (List Char))
    (h : ∀ w ∈ ws, w ≠ [] ∧ ∀ c ∈ w, pyIsSpace c = false) :
    noTrailWS (joinWords ws) = true := by
  induction ws with
  | nil => rfl
  | cons w ws' ih =>
    obtain ⟨hne, hfree⟩ := h w (List.mem_cons_self w ws')
    cases ws' with
    | nil =>
      unfold noTrailWS
      refine noLeadWS_of_wsfree _ ?_
      intro c hc
      exact hfree c (List.mem_reverse.mp hc)
    | cons u us =>
      have hJ : joinWords (u :: us) ≠ [] :=
        joinWords_ne_nil (u :: us) (by simp)
          (fun x hx => (h x (List.mem_cons_of_mem w hx)).1)
      have ihJ : noTrailWS (joinWords (u :: us)) = true :=
        ih (fun x hx => h x (List.mem_cons_of_mem w hx))
      unfold noTrailWS at ihJ ⊢
      rw [joinWords_cons_cons, List.reverse_append, List.reverse_cons,
        List.append_assoc]
      rw [noLeadWS_append_of_ne_nil _ _ (by simpa using hJ)]
      exact ihJ

theorem joinWords_wsOnly (ws : List (List Char))
    (h : ∀ w ∈ ws, ∀ c ∈ w, pyIsSpace c = false) :
    wsOnlySpaces (joinWords ws) = true := by
  induction ws with
  | nil => rfl
  | cons w ws' ih =>
    have hfree := h w (List.mem_cons_self w ws')
    cases ws' with
    | nil =>
      simp only [joinWords, wsOnlySpaces, List.all_eq_true]
      intro c hc
      simp [hfree c hc]
    | cons u us =>
      have ihJ := ih (fun x hx => h x (List.mem_cons_of_mem w hx))
      rw [joinWords_cons_cons]
      simp only [wsOnlySpaces, List.all_append, List.all_cons,
        Bool.and_eq_true, List.all_eq_true] at ihJ ⊢
      refine ⟨fun c hc => by simp [hfree c hc], by decide, ihJ⟩

theorem joinWords_noAdj (ws : List (List Char))
    (h : ∀ w ∈ ws, w ≠ [] ∧ ∀ c ∈ w, pyIsSpace c = false) :
    noAdjWS (joinWords ws) = true := by
  induction ws with
  | nil => rfl
  | cons w ws' ih =>
    obtain ⟨hne, hfree⟩ := h w (List.mem_cons_self w ws')
    cases ws' with
    | nil => exact noAdjWS_of_wsfree w hfree
    | cons u us =>
      have hrest : ∀ x ∈ u :: us, x ≠ [] ∧ ∀ c ∈ x, pyIsSpace c = false :=
        fun x hx => h x (List.mem_cons_of_mem w hx)
      rw [joinWords_cons_cons]
      refine noAdjWS_wsfree_append w _ hfree ?_
      exact noAdjWS_cons_space _ (joinWords_noLead _ hrest) (ih hrest)

theorem collapseWS_good (l : List Char) :
    noLeadWS (collapseWS l) = true ∧ noTrailWS (collapseWS l) = true
    ∧ wsOnlySpaces (collapseWS l) = true ∧ noAdjWS (collapseWS l) = true := by
  unfold collapseWS
  exact ⟨joinWords_noLead _ (pySplitWS_words l),
    joinWords_noTrail _ (pySplitWS_words l),
    joinWords_wsOnly _ (fun w hw => (pySplitWS_words l w hw).2),
    joinWords_noAdj _ (pySplitWS_words l)⟩

theorem noAdjWS_append_right (a b : List Char)
    (h : noAdjWS (a ++ b) = true) : noAdjWS b = true := by
  induction a with
  | nil => simpa using h
  | cons c a' ih => exact ih (noAdjWS_cons c (a' ++ b) (by simpa using h))

theorem splitAuxWS_wsfree_single :
    ∀ (w : List Char), w ≠ [] → (∀ c ∈ w, pyIsSpace c = false) →
      splitAuxWS w = [w] := by
  intro w
  induction w with
  | nil => intro h; exact absurd rfl h
  | cons c t ih =>
    intro _ hfree
    have hc : pyIsSpace c = false := hfree c (List.mem_cons_self c t)
    rw [splitAuxWS, if_neg (by simp [hc])]
    cases ht : t with
    | nil => subst ht; rw [splitAuxWS]
    | cons d t' =>
      have hts : splitAuxWS t = [t] := by
        refine ih (by rw [ht]; simp) ?_
        intro x hx
        exact hfree x (List.mem_cons_of_mem c hx)
      rw [← ht, hts]

theorem splitAuxWS_word_append :
    ∀ (w r : List Char), w ≠ [] → (∀ c ∈ w, pyIsSpace c = false) →
      splitAuxWS (w ++ ' ' :: r) = w :: splitAuxWS r := by
  intro w
  induction w with
  | nil => intro r h; exact absurd rfl h
  | cons c t ih =>
    intro r _ hfree
    have hc : pyIsSpace c = false := hfree c (List.mem_cons_self c t)
    rw [List.cons_append, splitAuxWS, if_neg (by simp [hc])]
    cases ht : t with
    | nil =>
      subst ht
      rw [List.nil_append, splitAuxWS, if_pos (by decide)]
    | cons d t' =>
      have hts : splitAuxWS (t ++ ' ' :: r) = t :: splitAuxWS r := by
        refine ih r (by rw [ht]; simp) ?_
        intro x hx
        exact hfree x (List.mem_cons_of_mem c hx)
      rw [← ht, hts]

theorem dropWhile_head_neg (p : Char → Bool) :
    ∀ (l : List Char) (d : Char) (t : List Char),
      l.dropWhile p = d :: t → p d = false := by
  intro l
  induction l with
  | nil => intro d t h; simp at h
  | cons c l' ih =>
    intro d t h
    by_cases hc : p c
    · rw [List.dropWhile_cons_of_pos hc] at h
      exact ih d t h
    · rw [List.dropWhile_cons_of_neg hc] at h
      rw [(List.cons.injEq _ _ _ _).mp h |>.1] at hc
      simpa using hc

theorem collapseWS_eq_self_of_good :
    ∀ (n : Nat) (l : List Char), l.length ≤ n →
      noLeadWS l = true → noTrailWS l = true → wsOnlySpaces l = true →
      noAdjWS l = true → collapseWS l = l := by
  intro n
  induction n with
  | zero =>
    intro l hl _ _ _ _
    rw [List.length_eq_zero.mp (Nat.le_zero.mp hl)]
    rfl
  | succ n ih =>
    intro l hl hlead htrail honly hadj
    cases hL : l with
    | nil => rfl
    | cons c m =>
      have hcne : pyIsSpace c = false := by
        rw [hL, noLeadWS] at hlead
        simpa using hlead
      have hwr : l.takeWhile (fun x => !pyIsSpace x)
          ++ l.dropWhile (fun x => !pyIsSpace x) = l :=
        List.takeWhile_append_dropWhile ..
      have hwne : l.takeWhile (fun x => !pyIsSpace x) ≠ [] := by
        rw [hL, List.takeWhile_cons_of_pos (by simp [hcne])]
        simp
      have hwfree : ∀ x ∈ l.takeWhile (fun x => !pyIsSpace x),
          pyIsSpace x = false := by
        intro x hx
        simpa using List.mem_takeWhile_imp hx
      rw [← hL]
      cases hr : l.dropWhile (fun x => !pyIsSpace x) with
      | nil =>
        rw [hr, List.append_nil] at hwr
        rw [← hwr]
        unfold collapseWS pySplitWS
        rw [splitAuxWS_wsfree_single _ hwne hwfree]
        rw [List.filter_cons_of_pos (by simpa using hwne), List.filter_nil]
        rfl
      | cons d r' =>
        have hdws : pyIsSpace d = true := by
          have := dropWhile_head_neg (fun x => !pyIsSpace x) l d r' hr
          simpa using this
        have hdmem : d ∈ l := by
          rw [← hwr, hr]
          exact List.mem_append_right _ (List.mem_cons_self d r')
        have hdsp : d = ' ' := by
          rw [wsOnlySpaces, List.all_eq_true] at honly
          have := honly d hdmem
          rw [hdws] at this
          simpa using this
        subst hdsp
        rw [hr] at hwr
        have hr'ne : r' ≠ [] := by
          intro hemp
          subst hemp
          rw [← hwr, noTrailWS, List.reverse_append] at htrail
          simp only [List.reverse_cons, List.reverse_nil, List.nil_append,
            List.singleton_append] at htrail
          rw [noLeadWS, show pyIsSpace ' ' = true from by decide] at htrail
          simp at htrail
        have hadj2 : noAdjWS (' ' :: r') = true := by
          refine noAdjWS_append_right (l.takeWhile (fun x => !pyIsSpace x)) _ ?_
          rw [hwr]
          exact hadj
        have hlead' : noLeadWS r' = true := by
          cases hr2 : r' with
          | nil => rfl
          | cons e t =>
            rw [hr2, noAdjWS, Bool.and_eq_true] at hadj2
            have := hadj2.1
            rw [noLeadWS]
            cases he : pyIsSpace e
            · rfl
            · rw [he, show pyIsSpace ' ' = true from by decide] at this
              simp at this
        have htrail' : noTrailWS r' = true := by
          rw [← hwr, noTrailWS, List.reverse_append, List.reverse_cons,
            List.append_assoc] at htrail
          rw [noLeadWS_append_of_ne_nil _ _ (by simpa using hr'ne)] at htrail
          exact htrail
        have honly' : wsOnlySpaces r' = true := by
          rw [← hwr, wsOnlySpaces, List.all_append, List.all_cons,
            Bool.and_eq_true, Bool.and_eq_true] at honly
          exact honly.2.2
        have hadj' : noAdjWS r' = true := noAdjWS_cons ' ' r' hadj2
        have hlen : r'.length ≤ n := by
          have hlen2 : (l.takeWhile (fun x => !pyIsSpace x)).length
              + (' ' :: r').length = l.length := by
            rw [← List.length_append, hwr]
          have hw1 : 1 ≤ (l.takeWhile (fun x => !pyIsSpace x)).length := by
            cases hz : l.takeWhile (fun x => !pyIsSpace x) with
            | nil => exact absurd hz hwne
            | cons _ _ => simp
          simp only [List.length_cons] at hlen2
          omega
        have ihr : collapseWS r' = r' := ih r' hlen hlead' htrail' honly' hadj'
        rw [← hwr]
        unfold collapseWS pySplitWS
        rw [splitAuxWS_word_append _ _ hwne hwfree]
        rw [List.filter_cons_of_pos (by simpa using hwne)]
        cases hps : (splitAuxWS r').filter (· ≠ []) with
        | nil =>
          exfalso
          apply hr'ne
          rw [← ihr]
          unfold collapseWS pySplitWS
          rw [hps]
          rfl
        | cons u us =>
          rw [joinWords_cons_cons]
          have : joinWords (u :: us) = r' := by
            rw [← ihr]
            unfold collapseWS pySplitWS
            rw [hps]
          rw [this]

theorem collapseWS_eq_self_iff (l : List Char)
    (hlead : noLeadWS l = true) (htrail : noTrailWS l = true) :
    collapseWS l = l ↔ (wsOnlySpaces l = true ∧ noAdjWS l = true) := by
  constructor
  · intro h
    obtain ⟨_, _, h3, h4⟩ := collapseWS_good l
    rw [h] at h3 h4
    exact ⟨h3, h4⟩
  · intro ⟨h1, h2⟩
    exact collapseWS_eq_self_of_good l.length l (Nat.le_refl _)
      hlead htrail h1 h2

theorem toLower_of_ws (c : Char) (h : pyIsSpace c = true) :
    Char.toLower c = c := by
  unfold pyIsSpace Char.isWhitespace at h
  simp only [Bool.or_eq_true, decide_eq_true_eq] at h
  rcases h with ((rfl | rfl) | rfl) | rfl <;> decide

theorem pyIsSpace_toLower (c : Char) :
    pyIsSpace (Char.toLower c) = pyIsSpace c := by
  cases hws : pyIsSpace c
  · unfold Char.toLower
    by_cases hrange : c.toNat ≥ 65 ∧ c.toNat ≤ 90
    · rw [if_pos hrange]
      obtain ⟨h1, h2⟩ := hrange
      obtain ⟨nn, hnn⟩ : ∃ nn, c.toNat = nn := ⟨_, rfl⟩
      rw [hnn] at h1 h2 ⊢
      interval_cases nn <;> decide
    · rw [if_neg hrange]
      exact hws
  · rw [toLower_of_ws c hws]
    exact hws

theorem toLower_eq_space_iff (c : Char) :
    (Char.toLower c = ' ') ↔ c = ' ' := by
  constructor
  · intro h
    have hws : pyIsSpace c = true := by
      rw [← pyIsSpace_toLower, h]
      decide
    rw [← toLower_of_ws c hws]
    exact h
  · intro h
    subst h
    decide

theorem noLeadWS_pyLower (l : List Char) :
    noLeadWS (pyLowerL l) = noLeadWS l := by
  cases l with
  | nil => rfl
  | cons c t =>
    show noLeadWS (Char.toLower c :: pyLowerL t) = noLeadWS (c :: t)
    rw [noLeadWS, noLeadWS, pyIsSpace_toLower]

theorem noTrailWS_pyLower (l : List Char) :
    noTrailWS (pyLowerL l) = noTrailWS l := by
  unfold noTrailWS pyLowerL
  rw [← List.map_reverse]
  exact noLeadWS_pyLower l.reverse

theorem wsOnlySpaces_pyLower (l : List Char) :
    wsOnlySpaces (pyLowerL l) = wsOnlySpaces l := by
  unfold wsOnlySpaces pyLowerL
  rw [List.all_map]
  congr 1
  funext c
  show (!pyIsSpace (Char.toLower c) || (Char.toLower c == ' '))
      = (!pyIsSpace c || (c == ' '))
  rw [pyIsSpace_toLower]
  congr 1
  rw [Bool.eq_iff_iff]
  simp only [beq_iff_eq]
  exact toLower_eq_space_iff c

theorem noAdjWS_pyLower (l : List Char) :
    noAdjWS (pyLowerL l) = noAdjWS l := by
  induction l using noAdjWS.induct with
  | case1 c d t ih =>
    show noAdjWS (Char.toLower c :: Char.toLower d :: pyLowerL t)
        = noAdjWS (c :: d :: t)
    rw [noAdjWS, noAdjWS, pyIsSpace_toLower, pyIsSpace_toLower]
    have : noAdjWS (Char.toLower d :: pyLowerL t) = noAdjWS (d :: t) := ih
    rw [this]
  | case2 l h =>
    cases l with
    | nil => rfl
    | cons c t =>
      cases t with
      | nil => rfl
      | cons d t' => exact absurd rfl (h c d t')

theorem noLeadWS_dropWhile (l : List Char) :
    noLeadWS (l.dropWhile pyIsSpace) = true := by
  induction l with
  | nil => rfl
  | cons c t ih =>
    by_cases hc : pyIsSpace c
    · rw [List.dropWhile_cons_of_pos hc]
      exact ih
    · rw [List.dropWhile_cons_of_neg hc, noLeadWS]
      simpa using hc

theorem noLeadWS_of_prefix (x a : List Char) (h : x <+: a)
    (ha : noLeadWS a = true) : noLeadWS x = true := by
  cases x with
  | nil => rfl
  | cons c t =>
    obtain ⟨rest, hrest⟩ := h
    rw [← hrest, List.cons_append, noLeadWS] at ha
    exact ha

theorem pyStripL_noLead (l : List Char) : noLeadWS (pyStripL l) = true := by
  unfold pyStripL
  refine noLeadWS_of_prefix _ (l.dropWhile pyIsSpace) ?_
    (noLeadWS_dropWhile l)
  have hsuf : ((l.dropWhile pyIsSpace).reverse.dropWhile pyIsSpace)
      <:+ (l.dropWhile pyIsSpace).reverse := List.dropWhile_suffix pyIsSpace
  have := List.reverse_prefix.mpr hsuf
  simpa using this

theorem pyStripL_noTrail (l : List Char) : noTrailWS (pyStripL l) = true := by
  unfold noTrailWS pyStripL
  rw [List.reverse_reverse]
  exact noLeadWS_dropWhile _

theorem normalize_content_eq (t : String) :
    VerificationEngine.normalize_content t = ⟨collapseWS (pyLowerL t.data)⟩ := by
  unfold VerificationEngine.normalize_content
  split
  · next h => subst h; rfl
  · rfl

theorem emitSentences_content (ext : Deps) (mid : String) (d : Nat) (st : Style) :
    ∀ (sents : List String) (i : Nat) (a : Atom),
      a ∈ (Atomizer.emitSentences ext mid d st sents i).1 →
      (∃ s, a.content = pyStrip s)
        ∧ a.normalizedHash = ext.sha256 (pyLower a.content) := by
  intro sents
  induction sents with
  | nil => intro i a ha; simp [Atomizer.emitSentences] at ha
  | cons s rest ih =>
    intro i a ha
    by_cases h : pyStrip s = ""
    · rw [Atomizer.emitSentences, if_pos h] at ha
      exact ih i a ha
    · rw [Atomizer.emitSentences, if_neg h] at ha
      rcases List.mem_cons.mp ha with ha | ha
      · subst ha
        exact ⟨⟨s, rfl⟩, rfl⟩
      · exact ih (i + 1) a ha

theorem emitText_content (ext : Deps) (mid s : String) (d : Nat) (st : Style)
    (i : Nat) (a : Atom) (ha : a ∈ (Atomizer.emitText ext mid s d st i).1) :
    (∃ s', a.content = pyStrip s')
      ∧ a.normalizedHash = ext.sha256 (pyLower a.content) := by
  unfold Atomizer.emitText at ha
  by_cases h : pyStrip s = ""
  · rw [if_pos h] at ha; simp at ha
  · rw [if_neg h] at ha
    exact emitSentences_content ext mid d st _ i a ha

theorem traverseList_content (ext : Deps) (mid : String) :
    ∀ (ns : List Node) (d : Nat) (st : Style) (i : Nat) (a : Atom),
      a ∈ (Atomizer.traverseList ext mid ns d st i).1 →
      (∃ s, a.content = pyStrip s)
        ∧ a.normalizedHash = ext.sha256 (pyLower a.content) := by
  intro ns d st i
  induction ns, d, st, i using Atomizer.traverseList.induct ext mid with
  | case1 d st i => intro a ha; simp [Atomizer.traverseList] at ha
  | case2 s rest d st i r1 ih =>
    intro a ha
    simp only [Atomizer.traverseList, List.mem_append] at ha
    rcases ha with ha | ha
    · exact emitText_content ext mid s d st i a ha
    · exact ih a ha
  | case3 name attrs children rest d st i d' st' r1 ih1 ih1b ih2 =>
    clear ih1
    intro a ha
    simp only [Atomizer.traverseList, List.mem_append] at ha
    rcases ha with ha | ha
    · exact ih1b a ha
    · exact ih2 a ha

theorem atomizePlainGo_content (ext : Deps) (mid : String)
    (sender : Option String) :
    ∀ (sents : List String) (i : Nat) (a : Atom),
      a ∈ Atomizer.atomizePlainGo ext mid sender sents i →
      (∃ s, a.content = pyStrip s)
        ∧ a.normalizedHash = ext.sha256 (pyLower a.content) := by
  intro sents
  induction sents with
  | nil => intro i a ha; simp [Atomizer.atomizePlainGo] at ha
  | cons s rest ih =>
    intro i a ha
    by_cases hs : pyStrip s = ""
    · rw [Atomizer.atomizePlainGo, if_pos hs] at ha
      exact ih (i + 1) a ha
    · rw [Atomizer.atomizePlainGo, if_neg hs] at ha
      rcases List.mem_cons.mp ha with ha | ha
      · subst ha
        refine ⟨?_, rfl⟩
        by_cases hgt : (pyStrip s).data.headD ' ' = '>'
        · exact ⟨_, by dsimp only; rw [if_pos hgt]⟩
        · exact ⟨s, by dsimp only; rw [if_neg hgt]⟩
      · exact ih (i + 1) a ha

theorem atomize_content (ext : Deps) (parseHtml : String → Node)
    (mid html plain : String) (sender : Option String) (a : Atom)
    (ha : a ∈ Atomizer.atomize ext parseHtml mid html plain sender) :
    (∃ s, a.content = pyStrip s)
      ∧ a.normalizedHash = ext.sha256 (pyLower a.content) := by
  unfold Atomizer.atomize at ha
  split at ha
  · exact atomizePlainGo_content ext mid sender _ 0 a ha
  · exact traverseList_content ext mid _ 0 {} 0 a ha

/-- C10: for every atom either path of the atomizer produces, the stored
`normalizedHash` is the hash of the lowercased (already-trimmed) content
with internal whitespace left intact, while `compute_hash` collapses
whitespace runs before hashing; assuming the hash primitive injective, the
two agree exactly when the content has no whitespace run of length two or
more and no whitespace character other than the plain space, and differ for
every atom whose content contains such collapsible whitespace. -/
theorem claim_C10_normalized_hash (ext : Deps) (parseHtml : String → Node)
    (mid html plain : String) (sender : Option String)
    (hinj : Function.Injective ext.sha256) :
    ∀ a ∈ Atomizer.atomize ext parseHtml mid html plain sender,
      a.normalizedHash = ext.sha256 (pyLower a.content)
      ∧ (a.normalizedHash
           = VerificationEngine.compute_hash ext.sha256 a.content
         ↔ hasCollapsibleWS a.content = false) := by
  intro a ha
  obtain ⟨⟨s, hc⟩, hh⟩ :=
    atomize_content ext parseHtml mid html plain sender a ha
  have trimL : noLeadWS a.content.data = true := by
    rw [hc]; exact pyStripL_noLead s.data
  have trimT : noTrailWS a.content.data = true := by
    rw [hc]; exact pyStripL_noTrail s.data
  refine ⟨hh, ?_⟩
  rw [hh]
  unfold VerificationEngine.compute_hash
  rw [normalize_content_eq]
  constructor
  · intro h
    have heqL : pyLowerL a.content.data = collapseWS (pyLowerL a.content.data) :=
      congrArg String.data (hinj h)
    have hgood := (collapseWS_eq_self_iff (pyLowerL a.content.data)
      (by rw [noLeadWS_pyLower]; exact trimL)
      (by rw [noTrailWS_pyLower]; exact trimT)).mp heqL.symm
    obtain ⟨h1, h2⟩ := hgood
    rw [wsOnlySpaces_pyLower] at h1
    rw [noAdjWS_pyLower] at h2
    unfold hasCollapsibleWS
    rw [h1, h2]
    rfl
  · intro h
    have hb : wsOnlySpaces a.content.data = true ∧ noAdjWS a.content.data = true := by
      unfold hasCollapsibleWS at h
      simpa using h
    have heqL : collapseWS (pyLowerL a.content.data) = pyLowerL a.content.data :=
      (collapseWS_eq_self_iff (pyLowerL a.content.data)
        (by rw [noLeadWS_pyLower]; exact trimL)
        (by rw [noTrailWS_pyLower]; exact trimT)).mpr
        ⟨by rw [wsOnlySpaces_pyLower]; exact hb.1,
         by rw [noAdjWS_pyLower]; exact hb.2⟩
    exact congrArg ext.sha256 (congrArg String.mk heqL.symm)

/-- Witness for C10 at the concrete plain-path atom with content `"a."`. -/
theorem claim_C10_witness :
    atomA.normalizedHash = depsA.sha256 (pyLower atomA.content)
    ∧ (atomA.normalizedHash
         = VerificationEngine.compute_hash depsA.sha256 atomA.content
       ↔ hasCollapsibleWS atomA.content = false) :=
  claim_C10_normalized_hash depsA parse0 "m" "" "x" none
    (fun _ _ h => h) atomA (by decide)
